import Mathlib

/-!
Verification of the cryptographic core of the vocdoni-z-sandbox repository:
the ElGamal homomorphic ciphertext algebra and its 128-byte wire encoding
(`crypto/elgamal/ciphertext.go`), the input-hash pipelines of the vote and
aggregation predicates (`circuits/voteverifier/vote_verifier_test.go` and the
aggregator test file), and the `POST /process` handler (`api/process.go`).

Machine integers and field elements are modelled as `Nat`; byte strings as
`List Nat` whose entries are byte values; fallible operations return
`Except`/`Option`; the mutable receiver of a Go pointer method is passed and
returned explicitly.
-/

/-! ## Byte-level encoding primitives

`arbo.BigIntToBytes(32, v)` writes `v` into exactly 32 bytes, little-endian;
`arbo.BytesToBigInt` is the little-endian read.  `FillBytes` on a 32-byte
buffer is the big-endian write used by the aggregator's limb hashing. -/

/-- `n` bytes of `v`, little-endian (truncating above `256 ^ n`). -/
def leBytes : Nat → Nat → List Nat
  | 0, _ => []
  | n + 1, v => v % 256 :: leBytes n (v / 256)

/-- Little-endian interpretation of a byte list. -/
def leToNat : List Nat → Nat
  | [] => 0
  | b :: t => b + 256 * leToNat t

/-- `n` bytes of `v`, big-endian, as produced by `big.Int.FillBytes`. -/
def beBytes (n v : Nat) : List Nat := (leBytes n v).reverse

theorem leBytes_length (n v : Nat) : (leBytes n v).length = n := by
  induction n generalizing v with
  | zero => rfl
  | succ k ih => simp [leBytes, ih]

theorem beBytes_length (n v : Nat) : (beBytes n v).length = n := by
  simp [beBytes, leBytes_length]

theorem leToNat_leBytes (n v : Nat) (h : v < 256 ^ n) : leToNat (leBytes n v) = v := by
  induction n generalizing v with
  | zero =>
    simp [pow_zero] at h
    simp [h, leBytes, leToNat]
  | succ k ih =>
    have hdiv : v / 256 < 256 ^ k := by
      rw [Nat.div_lt_iff_lt_mul (by norm_num : 0 < 256)]
      calc v < 256 ^ (k + 1) := h
        _ = 256 ^ k * 256 := by ring
    simp [leBytes, leToNat, ih (v / 256) hdiv]
    omega

theorem pow256_32 : (256 : Nat) ^ 32 = 2 ^ 256 := by norm_num

/-- Dropping a length-32 prefix of an append. -/
theorem drop_32_append (a b : List Nat) (ha : a.length = 32) : (a ++ b).drop 32 = b := by
  rw [← ha, List.drop_left]

/-- Taking the length-32 prefix of an append. -/
theorem take_32_append (a b : List Nat) (ha : a.length = 32) : (a ++ b).take 32 = a := by
  rw [← ha, List.take_left]

/-! ## Curve point abstraction

Modelled from the spec: the code's `ecc.Point` capability interface and the
`crypto/ecc/format` conversions live outside the available source, so the
abstraction is taken from the spec's contract (section 4.1): native
twisted-Edwards coordinates, a reduced twisted-Edwards interchange form with
pure and invertible conversions `FromTEtoRTE` / `FromRTEtoTE`,
commutative/associative group addition, an identity element, and a generator.
A point is a pair of field elements, kept in native form. -/

structure Curve where
  /-- Field modulus: every coordinate of a curve point lies below it. -/
  p : Nat
  /-- Curve membership test on native twisted-Edwards coordinates. -/
  onCurve : Nat × Nat → Bool
  /-- Group addition (`SafeAdd`) on native coordinates. -/
  add : Nat × Nat → Nat × Nat → Nat × Nat
  /-- The identity element returned by `New()`. -/
  zero : Nat × Nat
  /-- The group generator `g` used by ElGamal encryption. -/
  g : Nat × Nat
  /-- `format.FromTEtoRTE`: native to reduced twisted-Edwards form. -/
  teToRte : Nat × Nat → Nat × Nat
  /-- `format.FromRTEtoTE`: reduced twisted-Edwards form to native. -/
  rteToTe : Nat × Nat → Nat × Nat

/-- The spec's contract on a curve implementation: addition is commutative and
associative on curve points, the coordinate-form conversions are mutually
inverse, reduced coordinates of curve points are field elements, and the field
fits in 32 bytes. -/
structure Curve.Lawful (c : Curve) : Prop where
  add_comm : ∀ a b, c.onCurve a = true → c.onCurve b = true → c.add a b = c.add b a
  add_assoc : ∀ a b d, c.onCurve a = true → c.onCurve b = true → c.onCurve d = true →
    c.add (c.add a b) d = c.add a (c.add b d)
  rte_te : ∀ q, c.onCurve q = true → c.rteToTe (c.teToRte q) = q
  te_bound : ∀ q, c.onCurve q = true → (c.teToRte q).1 < c.p ∧ (c.teToRte q).2 < c.p
  p_bound : c.p ≤ 2 ^ 256

/-- Modelled from the spec: `SetPoint(x, y)` reconstructs an element from
reduced twisted-Edwards coordinates and fails if a coordinate is not a valid
field element or the resulting pair is not on the curve.  (The concrete curve
implementations are outside the available source; the call site in
`Ciphertext.Deserialize` returns a single `ecc.Point` value, so any such
failure cannot surface as a `Deserialize` error.) -/
def Curve.setPointChecked (c : Curve) (x y : Nat) : Option (Nat × Nat) :=
  if x < c.p ∧ y < c.p ∧ c.onCurve (c.rteToTe (x, y)) = true then
    some (c.rteToTe (x, y))
  else
    none

/-- Iterated group addition: `smul n q = n · q`. -/
def Curve.smul (c : Curve) : Nat → Nat × Nat → Nat × Nat
  | 0, _ => c.zero
  | n + 1, q => c.add q (c.smul n q)

/-! ## Ciphertext (`crypto/elgamal/ciphertext.go`) -/

/-- An ElGamal ciphertext: the two curve points `C1`, `C2`, in native
twisted-Edwards coordinates. -/
structure Ciphertext where
  C1 : Nat × Nat
  C2 : Nat × Nat
deriving DecidableEq, Repr

/-- `Ciphertext.Serialize`: 4 × 32 bytes, the little-endian encodings of
`C1.X, C1.Y, C2.X, C2.Y` after conversion to reduced twisted-Edwards form. -/
def Ciphertext.serialize (c : Curve) (z : Ciphertext) : List Nat :=
  leBytes 32 (c.teToRte z.C1).1 ++ (leBytes 32 (c.teToRte z.C1).2 ++
    (leBytes 32 (c.teToRte z.C2).1 ++ leBytes 32 (c.teToRte z.C2).2))

/-- The helper closure `readBigInt` inside `Ciphertext.Deserialize`: read the
32-byte little-endian chunk of `data` starting at `offset`. -/
def readBigInt (data : List Nat) (offset : Nat) : Nat :=
  leToNat ((data.drop offset).take 32)

/-- `Ciphertext.Deserialize`: returns the error (if any) together with the
final value of the receiver `z`.  The source performs exactly one check (the
length guard) and then rebuilds both points from the four chunks via
`FromRTEtoTE`, returning `nil`. -/
def Ciphertext.deserialize (c : Curve) (z : Ciphertext) (data : List Nat) :
    Option String × Ciphertext :=
  if data.length ≠ 4 * 32 then
    (some ("invalid input length: got " ++ toString data.length ++
      " bytes, expected " ++ toString (4 * 32) ++ " bytes"), z)
  else
    (none,
      { C1 := c.rteToTe (readBigInt data (0 * 32), readBigInt data (1 * 32))
        C2 := c.rteToTe (readBigInt data (2 * 32), readBigInt data (3 * 32)) })

/-- The value computed by `Ciphertext.Add` for its two arguments: coordinate
wise group addition of `C1` and `C2`. -/
def Ciphertext.addPure (c : Curve) (x y : Ciphertext) : Ciphertext :=
  { C1 := c.add x.C1 y.C1, C2 := c.add x.C2 y.C2 }

/-- A heap of `Ciphertext` cells addressed by pointers, for the stateful
pointer-receiver methods. -/
abbrev Heap := Nat → Ciphertext

def Heap.update (h : Heap) (i : Nat) (v : Ciphertext) : Heap :=
  fun j => if j = i then v else h j

/-- `Ciphertext.Add` as it executes in Go: `z.C1.SafeAdd(x.C1, y.C1)` then
`z.C2.SafeAdd(x.C2, y.C2)` mutate the receiver's cell in sequence, and the
receiver pointer is returned. -/
def Ciphertext.addGo (c : Curve) (h : Heap) (z x y : Nat) : Heap × Nat :=
  let h1 := h.update z { h z with C1 := c.add (h x).C1 (h y).C1 }
  let h2 := h1.update z { h1 z with C2 := c.add (h1 x).C2 (h1 y).C2 }
  (h2, z)

/-- Modelled from the spec: `EncryptWithK(publicKey, message, k)` computes
`C1 = k·g` and `C2 = message·g + k·publicKey` (additive ElGamal in the
exponent) and cannot fail; its body is outside the available source and the
spec states encryption "fails only if randomness generation fails". -/
def encryptWithK (c : Curve) (publicKey : Nat × Nat) (message k : Nat) :
    (Nat × Nat) × (Nat × Nat) :=
  (c.smul k c.g, c.add (c.smul message c.g) (c.smul k publicKey))

/-- `Ciphertext.Encrypt`: if the caller passes no `k`, the outcome `rand` of
`RandK()` is consulted (and its failure is wrapped as an encryption error);
then the two points are produced by `EncryptWithK` and stored in the
receiver, which is returned. -/
def Ciphertext.encrypt (c : Curve) (message : Nat) (publicKey : Nat × Nat)
    (k : Option Nat) (rand : Except String Nat) : Except String Ciphertext :=
  match k with
  | some k0 =>
    let r := encryptWithK c publicKey message k0
    Except.ok { C1 := r.1, C2 := r.2 }
  | none =>
    match rand with
    | Except.error e => Except.error ("elgamal encryption failed: " ++ e)
    | Except.ok k0 =>
      let r := encryptWithK c publicKey message k0
      Except.ok { C1 := r.1, C2 := r.2 }

/-! ## A concrete lawful curve instance, used to instantiate theorems -/

/-- A small concrete instance of the spec's curve contract: the "curve" is the
cyclic group of order 13 embedded as the pairs `(x, 0)` with `x < 13`, with
both coordinate forms coinciding. -/
def testCurve : Curve where
  p := 13
  onCurve := fun q => decide (q.1 < 13 ∧ q.2 = 0)
  add := fun a b => ((a.1 + b.1) % 13, 0)
  zero := (0, 0)
  g := (1, 0)
  teToRte := fun q => q
  rteToTe := fun q => q

/-! ## Vote predicate input hashing (`circuits/voteverifier/vote_verifier_test.go`)

The hash primitives (`mimc7.Hash`, the gnark MiMC) are external, assumed
correct collaborators; the pipeline is parametric in the multi-input hash
function `H`. -/

/-- The scalar inputs a voter's witness carries, at the `*big.Int` level:
`address`, `processId` already reduced into the inner field as the test
does with `util.BigToFF`. -/
structure VoteParams where
  maxCount : Nat
  forceUniqueness : Nat
  maxValue : Nat
  minValue : Nat
  maxTotalCost : Nat
  minTotalCost : Nat
  costExp : Nat
  costFromWeight : Nat
  address : Nat
  weight : Nat
  processId : Nat
  encryptionKeyX : Nat
  encryptionKeyY : Nat
  nullifier : Nat
  commitment : Nat
  cipherCoords : List Nat
deriving DecidableEq, Repr

/-- `bigCircomInputs`: the ordered list of circom-side public values hashed
into the inner `inputs_hash` (vote_verifier_test.go lines 71-88). -/
def bigCircomInputs (v : VoteParams) : List Nat :=
  [v.maxCount, v.forceUniqueness, v.maxValue, v.minValue, v.maxTotalCost,
   v.minTotalCost, v.costExp, v.costFromWeight, v.address, v.weight,
   v.processId, v.encryptionKeyX, v.encryptionKeyY, v.nullifier,
   v.commitment] ++ v.cipherCoords

/-- The inner hash: `circomInputsHash = mimc7.Hash(bigCircomInputs)`. -/
def circomInputsHash (H : List Nat → Nat) (v : VoteParams) : Nat :=
  H (bigCircomInputs v)

/-- The message the voter's ECDSA signature is produced over
(vote_verifier_test.go line 92: `SignECDSA(privKey, circomInputsHash.Bytes())`). -/
def signedMessage (H : List Nat → Nat) (v : VoteParams) : Nat :=
  circomInputsHash H v

/-- The outer hash that folds in the census root and becomes the circuit's
public `InputsHash` (vote_verifier_test.go lines 151-153:
`mimc7.Hash(bigCircomInputs ++ [censusRoot])`). -/
def voteInputsHash (H : List Nat → Nat) (v : VoteParams) (censusRoot : Nat) : Nat :=
  H (bigCircomInputs v ++ [censusRoot])

/-- A concrete (non-cryptographic) instantiation of the hash parameter, used
to exhibit concrete evaluations: the length of the input list. -/
def lenHash : List Nat → Nat := List.length

/-- A concrete all-zero voter parameter record. -/
def voteParams0 : VoteParams :=
  { maxCount := 0, forceUniqueness := 0, maxValue := 0, minValue := 0
    maxTotalCost := 0, minTotalCost := 0, costExp := 0, costFromWeight := 0
    address := 0, weight := 0, processId := 0, encryptionKeyX := 0
    encryptionKeyY := 0, nullifier := 0, commitment := 0, cipherCoords := [] }

/-! ## Aggregation predicate public-input hashing (aggregator test file) -/

/-- A gnark emulated field element: a list of limbs, least-significant first. -/
structure EmulatedElement where
  limbs : List Nat
deriving DecidableEq, Repr

/-- Fixed-width limb decomposition: `nb` limbs of `width` bits each,
least-significant first. -/
def limbsOf (width nb v : Nat) : List Nat :=
  match nb with
  | 0 => []
  | k + 1 => v % 2 ^ width :: limbsOf width k (v / 2 ^ width)

/-- `emulated.ValueOf[sw_bls12377.ScalarField]`: decomposes a value into the
4 × 64-bit limbs gnark uses to emulate the BLS12-377 scalar field inside the
BW6-761 circuit field. -/
def emulatedValueOf (v : Nat) : EmulatedElement :=
  { limbs := limbsOf 64 4 v }

/-- The shared inputs of one aggregation batch. -/
structure AggregatorParams where
  maxCount : Nat
  forceUniqueness : Nat
  maxValue : Nat
  minValue : Nat
  maxTotalCost : Nat
  minTotalCost : Nat
  costExp : Nat
  costFromWeight : Nat
  encryptionKeyX : Nat
  encryptionKeyY : Nat
  processId : Nat
  censusRoot : Nat
  nullifiers : List Nat
  commitments : List Nat
  addresses : List Nat
  cipherCoords : List Nat
deriving DecidableEq, Repr

/-- The `inputs` slice assembled by the aggregator test (lines 240-265):
the eight process parameters, the encryption key coordinates, the process id,
the census root, then every nullifier, every commitment, every address (raw,
not field-reduced) and every raw ciphertext coordinate, each turned into an
emulated element. -/
def aggregatorPublicInputs (a : AggregatorParams) : List EmulatedElement :=
  ([a.maxCount, a.forceUniqueness, a.maxValue, a.minValue, a.maxTotalCost,
    a.minTotalCost, a.costExp, a.costFromWeight, a.encryptionKeyX,
    a.encryptionKeyY, a.processId, a.censusRoot]
    ++ a.nullifiers ++ a.commitments ++ a.addresses
    ++ a.cipherCoords).map emulatedValueOf

/-- `ComputePublicInputsHashFromBLS12377ToBW6761` (lines 315-333): for each
input, each limb is written to the BW6-761 MiMC hasher as a 32-byte big-endian
block; the digest of the written block sequence is the batch hash.  The hasher
is modelled by the abstract function `H` on the list of written blocks. -/
def computePublicInputsHashFromBLS12377ToBW6761 (H : List (List Nat) → Nat)
    (publicInputs : List EmulatedElement) : Nat :=
  H ((publicInputs.map (fun e => e.limbs.map (beBytes 32))).flatten)

/-- The declared `InputsHash` of the aggregator witness: the test assigns it
the recomputed batch hash (line 275: `InputsHash: publicHash`). -/
def aggregatorDeclaredInputsHash (H : List (List Nat) → Nat)
    (a : AggregatorParams) : Nat :=
  computePublicInputsHashFromBLS12377ToBW6761 H (aggregatorPublicInputs a)

/-- Follows the claim's words: the batch hash is the outer-field hash of the
32-byte big-endian blocks of the fixed-width limbs of, in order, the process
parameters, the encryption public key coordinates, the process id, the census
root, then every voter's nullifier, commitment, address, and raw ciphertext
coordinates.  Stated independently of the code path: first the flat limb
sequence of all inputs is formed, then each limb becomes one 32-byte block. -/
def aggregatorBatchHashSpec (H : List (List Nat) → Nat)
    (a : AggregatorParams) : Nat :=
  H ((([a.maxCount, a.forceUniqueness, a.maxValue, a.minValue, a.maxTotalCost,
    a.minTotalCost, a.costExp, a.costFromWeight, a.encryptionKeyX,
    a.encryptionKeyY, a.processId, a.censusRoot]
    ++ a.nullifiers ++ a.commitments ++ a.addresses
    ++ a.cipherCoords).map (limbsOf 64 4)).flatten.map (beBytes 32))

/-! ## `POST /process` handler (`api/process.go`) -/

/-- The decoded request body of `POST /process`. -/
structure ProcessRequest where
  chainId : Nat
  nonce : Nat
  signature : List Nat
deriving DecidableEq, Repr

/-- The process identity derived from the recovered address and the request. -/
structure ProcessID where
  address : Nat
  nonce : Nat
  chainId : Nat
deriving DecidableEq, Repr

/-- Modelled from the spec: the API's structured errors carry stable error
codes; the error-value definitions (`ErrMalformedBody`, `ErrInvalidSignature`,
`ErrGenericInternalServerError`) are outside the available source, so they are
represented by three fixed, distinct codes. -/
def errMalformedBodyCode : Nat := 1

def errInvalidSignatureCode : Nat := 2

def errGenericInternalCode : Nat := 3

/-- What the handler writes to the response: a structured error with its
stable code, or the success payload (process id and public key coordinates). -/
inductive ApiResponse where
  | apiError (code : Nat) (msg : String)
  | ok (pid : ProcessID) (pubKeyX pubKeyY : Nat)
deriving DecidableEq, Repr

/-- The observable outcome of one handler run: the response written, and
whether `StoreEncryptionKeys` was called. -/
structure HandlerResult where
  response : ApiResponse
  storeCalled : Bool
deriving DecidableEq, Repr

/-- `API.newProcess`: the handler's control flow over the outcomes of its
collaborators — body decoding, address recovery from the signature, ElGamal
key generation, and key storage.  Each failing step writes its structured
error and returns at once. -/
def newProcess (decodeBody : Except String ProcessRequest)
    (recoverAddress : ProcessRequest → Except String Nat)
    (generateKey : Except String ((Nat × Nat) × Nat))
    (store : ProcessID → (Nat × Nat) → Nat → Except String Unit) :
    HandlerResult :=
  match decodeBody with
  | Except.error e =>
    { response := ApiResponse.apiError errMalformedBodyCode
        ("could not decode request body: " ++ e)
      storeCalled := false }
  | Except.ok p =>
    match recoverAddress p with
    | Except.error e =>
      { response := ApiResponse.apiError errInvalidSignatureCode
          ("could not extract address from signature: " ++ e)
        storeCalled := false }
    | Except.ok address =>
      let pid : ProcessID := { address := address, nonce := p.nonce, chainId := p.chainId }
      match generateKey with
      | Except.error e =>
        { response := ApiResponse.apiError errGenericInternalCode
            ("could not generate elgamal key: " ++ e)
          storeCalled := false }
      | Except.ok (publicKey, privateKey) =>
        match store pid publicKey privateKey with
        | Except.error e =>
          { response := ApiResponse.apiError errGenericInternalCode
              ("could not store encryption keys: " ++ e)
            storeCalled := true }
        | Except.ok _ =>
          { response := ApiResponse.ok pid publicKey.1 publicKey.2
            storeCalled := true }

/-! ## Concrete instances used to instantiate theorems with hypotheses -/

/-- A concrete heap of three ciphertext cells. -/
def heap0 : Heap := fun n =>
  if n = 0 then { C1 := (1, 0), C2 := (2, 0) }
  else if n = 1 then { C1 := (3, 0), C2 := (4, 0) }
  else { C1 := (0, 0), C2 := (0, 0) }

/-- A concrete valid ciphertext on `testCurve`. -/
def zTest : Ciphertext := { C1 := (3, 0), C2 := (5, 0) }

/-- A second concrete valid ciphertext on `testCurve`. -/
def wTest : Ciphertext := { C1 := (7, 0), C2 := (11, 0) }

/-- A 128-byte input whose first decoded point `(5, 7)` is not on `testCurve`. -/
def badBytes : List Nat :=
  (5 :: List.replicate 31 0) ++ ((7 :: List.replicate 31 0) ++ List.replicate 64 0)

/-- A concrete request body for instantiating the handler. -/
def request0 : ProcessRequest := { chainId := 1, nonce := 2, signature := [3] }

/-- Address recovery that fails. -/
def recoverFail : ProcessRequest → Except String Nat := fun _ => Except.error "sig"

/-- Address recovery that succeeds with address 7. -/
def recoverOk : ProcessRequest → Except String Nat := fun _ => Except.ok 7

/-- Key generation outcome that succeeds. -/
def genKeyOk : Except String ((Nat × Nat) × Nat) := Except.ok ((3, 4), 5)

/-- A key store that always succeeds. -/
def storeOk : ProcessID → (Nat × Nat) → Nat → Except String Unit :=
  fun _ _ _ => Except.ok ()

/-! ## Helper lemmas -/

theorem testCurve_lawful : testCurve.Lawful := by
  constructor
  · intro a b _ _
    simp only [testCurve]
    rw [Nat.add_comm]
  · intro a b d _ _ _
    simp [testCurve, Prod.ext_iff]
    omega
  · intro q _
    simp [testCurve]
  · intro q hq
    simp only [testCurve, decide_eq_true_eq] at hq ⊢
    omega
  · norm_num [testCurve]

/-- The four 32-byte chunks of a serialized valid ciphertext decode back to the
reduced twisted-Edwards coordinates, in order. -/
theorem serialize_chunks (c : Curve) (hc : c.Lawful) (z : Ciphertext)
    (h1 : c.onCurve z.C1 = true) (h2 : c.onCurve z.C2 = true) :
    (Ciphertext.serialize c z).length = 128 ∧
    readBigInt (Ciphertext.serialize c z) 0 = (c.teToRte z.C1).1 ∧
    readBigInt (Ciphertext.serialize c z) 32 = (c.teToRte z.C1).2 ∧
    readBigInt (Ciphertext.serialize c z) 64 = (c.teToRte z.C2).1 ∧
    readBigInt (Ciphertext.serialize c z) 96 = (c.teToRte z.C2).2 := by
  obtain ⟨hx1, hy1⟩ := hc.te_bound z.C1 h1
  obtain ⟨hx2, hy2⟩ := hc.te_bound z.C2 h2
  have hb : ∀ v, v < c.p → leToNat (leBytes 32 v) = v := fun v hv =>
    leToNat_leBytes 32 v (by rw [pow256_32]; exact lt_of_lt_of_le hv hc.p_bound)
  have hA : (leBytes 32 (c.teToRte z.C1).1).length = 32 := leBytes_length 32 _
  have hB : (leBytes 32 (c.teToRte z.C1).2).length = 32 := leBytes_length 32 _
  have hC : (leBytes 32 (c.teToRte z.C2).1).length = 32 := leBytes_length 32 _
  have e32 : (Ciphertext.serialize c z).drop 32 =
      leBytes 32 (c.teToRte z.C1).2 ++
        (leBytes 32 (c.teToRte z.C2).1 ++ leBytes 32 (c.teToRte z.C2).2) :=
    drop_32_append _ _ hA
  have e64 : (Ciphertext.serialize c z).drop 64 =
      leBytes 32 (c.teToRte z.C2).1 ++ leBytes 32 (c.teToRte z.C2).2 := by
    have h3264 : (Ciphertext.serialize c z).drop 64 =
        ((Ciphertext.serialize c z).drop 32).drop 32 := by
      rw [List.drop_drop]
    rw [h3264, e32, drop_32_append _ _ hB]
  have e96 : (Ciphertext.serialize c z).drop 96 = leBytes 32 (c.teToRte z.C2).2 := by
    have h6496 : (Ciphertext.serialize c z).drop 96 =
        ((Ciphertext.serialize c z).drop 64).drop 32 := by
      rw [List.drop_drop]
    rw [h6496, e64, drop_32_append _ _ hC]
  refine ⟨?_, ?_, ?_, ?_, ?_⟩
  · simp [Ciphertext.serialize, leBytes_length]
  · rw [readBigInt, List.drop_zero, Ciphertext.serialize,
      take_32_append _ _ hA, hb _ hx1]
  · rw [readBigInt, e32, take_32_append _ _ hB, hb _ hy1]
  · rw [readBigInt, e64, take_32_append _ _ hC, hb _ hx2]
  · rw [readBigInt, e96, List.take_of_length_le (by rw [leBytes_length]), hb _ hy2]

/-- Evaluation of `Ciphertext.addGo` when neither argument aliases the
receiver: only the receiver's cell changes. -/
theorem addGo_eval (c : Curve) (h : Heap) (z x y : Nat) (hxz : x ≠ z) (hyz : y ≠ z) :
    (Ciphertext.addGo c h z x y).2 = z ∧
    ∀ n, (Ciphertext.addGo c h z x y).1 n =
      if n = z then { C1 := c.add (h x).C1 (h y).C1, C2 := c.add (h x).C2 (h y).C2 }
      else h n := by
  refine ⟨rfl, ?_⟩
  intro n
  by_cases hn : n = z <;>
    simp [Ciphertext.addGo, Heap.update, hn, hxz, hyz]

/-! ## Claims about the ciphertext wire encoding -/

/-- C1: for every valid ciphertext `z` (both points on the curve),
`Deserialize(Serialize(z))` succeeds — whatever the prior value `w` of the
receiver — and yields exactly `z`, coordinate-wise: `Deserialize` is a left
inverse of `Serialize` on valid ciphertexts. -/
theorem deserialize_serialize_roundTrip (c : Curve) (hc : c.Lawful) (z w : Ciphertext)
    (h1 : c.onCurve z.C1 = true) (h2 : c.onCurve z.C2 = true) :
    Ciphertext.deserialize c w (Ciphertext.serialize c z) = (none, z) := by
  obtain ⟨hlen, e0, e32, e64, e96⟩ := serialize_chunks c hc z h1 h2
  rw [Ciphertext.deserialize, if_neg (by rw [hlen]; norm_num)]
  norm_num [e0, e32, e64, e96]
  rw [hc.rte_te z.C1 h1, hc.rte_te z.C2 h2]

theorem deserialize_serialize_roundTrip_witness :
    testCurve.Lawful ∧
    testCurve.onCurve zTest.C1 = true ∧ testCurve.onCurve zTest.C2 = true ∧
    Ciphertext.deserialize testCurve wTest (Ciphertext.serialize testCurve zTest) =
      (none, zTest) :=
  ⟨testCurve_lawful, by decide, by decide,
    deserialize_serialize_roundTrip testCurve testCurve_lawful zTest wTest
      (by decide) (by decide)⟩

/-- C2: for every valid ciphertext, `Serialize` returns exactly 128 bytes, and
the four 32-byte chunks, read as little-endian integers, are the coordinates
of `C1` and `C2` converted by `FromTEtoRTE`, in the order
`C1.x, C1.y, C2.x, C2.y`. -/
theorem serialize_wire_format (c : Curve) (hc : c.Lawful) (z : Ciphertext)
    (h1 : c.onCurve z.C1 = true) (h2 : c.onCurve z.C2 = true) :
    (Ciphertext.serialize c z).length = 128 ∧
    readBigInt (Ciphertext.serialize c z) 0 = (c.teToRte z.C1).1 ∧
    readBigInt (Ciphertext.serialize c z) 32 = (c.teToRte z.C1).2 ∧
    readBigInt (Ciphertext.serialize c z) 64 = (c.teToRte z.C2).1 ∧
    readBigInt (Ciphertext.serialize c z) 96 = (c.teToRte z.C2).2 :=
  serialize_chunks c hc z h1 h2

theorem serialize_wire_format_witness :
    testCurve.Lawful ∧
    testCurve.onCurve zTest.C1 = true ∧ testCurve.onCurve zTest.C2 = true ∧
    ((Ciphertext.serialize testCurve zTest).length = 128 ∧
     readBigInt (Ciphertext.serialize testCurve zTest) 0 = (testCurve.teToRte zTest.C1).1 ∧
     readBigInt (Ciphertext.serialize testCurve zTest) 32 = (testCurve.teToRte zTest.C1).2 ∧
     readBigInt (Ciphertext.serialize testCurve zTest) 64 = (testCurve.teToRte zTest.C2).1 ∧
     readBigInt (Ciphertext.serialize testCurve zTest) 96 = (testCurve.teToRte zTest.C2).2) :=
  ⟨testCurve_lawful, by decide, by decide,
    serialize_wire_format testCurve testCurve_lawful zTest (by decide) (by decide)⟩

/-- C5: `Deserialize` on any byte sequence whose length is not 128 returns the
decode error naming the got and expected lengths, and leaves the receiver
unchanged. -/
theorem deserialize_length_guard (c : Curve) (z : Ciphertext) (data : List Nat)
    (h : data.length ≠ 128) :
    Ciphertext.deserialize c z data =
      (some ("invalid input length: got " ++ toString data.length ++
        " bytes, expected " ++ toString (4 * 32) ++ " bytes"), z) := by
  rw [Ciphertext.deserialize, if_pos (by omega)]

theorem deserialize_length_guard_witness :
    ([] : List Nat).length ≠ 128 ∧
    Ciphertext.deserialize testCurve zTest [] =
      (some ("invalid input length: got " ++ toString (([] : List Nat).length) ++
        " bytes, expected " ++ toString (4 * 32) ++ " bytes"), zTest) :=
  ⟨by decide, deserialize_length_guard testCurve zTest [] (by decide)⟩

set_option maxRecDepth 20000 in
/-- C6 counterexample: `badBytes` is a 128-byte input whose first decoded
coordinate pair is rejected by the spec's `SetPoint` check (the point `(5, 7)`
is not on `testCurve`), yet `Deserialize` returns no error: the source returns
`nil` unconditionally once the length guard passes, so point invalidity never
surfaces as a `Deserialize` error. -/
theorem deserialize_accepts_offcurve_cex :
    badBytes.length = 128 ∧
    testCurve.setPointChecked (readBigInt badBytes 0) (readBigInt badBytes 32) = none ∧
    (Ciphertext.deserialize testCurve zTest badBytes).1 = none := by decide

/-- C6 amended: for every 128-byte input, `Deserialize` succeeds — it rebuilds
the two points from the four chunks via `FromRTEtoTE` without any field-element
or on-curve validation; only a wrong length produces an error. -/
theorem deserialize_no_point_validation (c : Curve) (z : Ciphertext) (data : List Nat)
    (h : data.length = 128) :
    Ciphertext.deserialize c z data =
      (none, { C1 := c.rteToTe (readBigInt data 0, readBigInt data 32),
               C2 := c.rteToTe (readBigInt data 64, readBigInt data 96) }) := by
  rw [Ciphertext.deserialize, if_neg (by omega)]

set_option maxRecDepth 20000 in
theorem deserialize_no_point_validation_witness :
    badBytes.length = 128 ∧
    Ciphertext.deserialize testCurve zTest badBytes =
      (none, { C1 := testCurve.rteToTe (readBigInt badBytes 0, readBigInt badBytes 32),
               C2 := testCurve.rteToTe (readBigInt badBytes 64, readBigInt badBytes 96) }) :=
  ⟨by decide, deserialize_no_point_validation testCurve zTest badBytes (by decide)⟩

/-- C7: with a caller-provided `k`, `Encrypt` never returns an error and
produces `C1 = k·g`, `C2 = message·g + k·publicKey`; an error is returned only
when `k` is absent and randomness generation fails, and it wraps the
randomness error. -/
theorem encrypt_with_provided_k (c : Curve) (message k0 : Nat) (publicKey : Nat × Nat)
    (k : Option Nat) (rand : Except String Nat) (e : String)
    (he : Ciphertext.encrypt c message publicKey k rand = Except.error e) :
    Ciphertext.encrypt c message publicKey (some k0) rand =
      Except.ok { C1 := c.smul k0 c.g,
                  C2 := c.add (c.smul message c.g) (c.smul k0 publicKey) } ∧
    k = none ∧
    ∃ msg, rand = Except.error msg ∧ e = "elgamal encryption failed: " ++ msg := by
  refine ⟨rfl, ?_, ?_⟩
  · cases k with
    | some k1 => simp [Ciphertext.encrypt] at he
    | none => rfl
  · cases k with
    | some k1 => simp [Ciphertext.encrypt] at he
    | none =>
      cases rand with
      | ok k1 => simp [Ciphertext.encrypt] at he
      | error msg =>
        refine ⟨msg, rfl, ?_⟩
        simp [Ciphertext.encrypt] at he
        exact he.symm

theorem encrypt_with_provided_k_witness :
    Ciphertext.encrypt testCurve 1 (3, 0) (some 2) (Except.error "x") =
      Except.ok { C1 := testCurve.smul 2 testCurve.g,
                  C2 := testCurve.add (testCurve.smul 1 testCurve.g)
                          (testCurve.smul 2 (3, 0)) } ∧
    (none : Option Nat) = none ∧
    ∃ msg, (Except.error "x" : Except String Nat) = Except.error msg ∧
      "elgamal encryption failed: " ++ "x" = "elgamal encryption failed: " ++ msg :=
  encrypt_with_provided_k testCurve 1 2 (3, 0) none (Except.error "x")
    ("elgamal encryption failed: " ++ "x") rfl

/-- C8: `Add` computes the coordinate-wise group addition of `C1` and `C2`;
it is total and pure (a function of its arguments that does not touch them:
the executed method leaves both argument cells unchanged and writes the
coordinate-wise sum to the receiver), and the computed value is commutative
and associative. -/
theorem add_commutative_associative (c : Curve) (hc : c.Lawful) (x y w : Ciphertext)
    (hx1 : c.onCurve x.C1 = true) (hx2 : c.onCurve x.C2 = true)
    (hy1 : c.onCurve y.C1 = true) (hy2 : c.onCurve y.C2 = true)
    (hw1 : c.onCurve w.C1 = true) (hw2 : c.onCurve w.C2 = true)
    (h : Heap) (z i j : Nat) (hiz : i ≠ z) (hjz : j ≠ z) :
    Ciphertext.addPure c x y = { C1 := c.add x.C1 y.C1, C2 := c.add x.C2 y.C2 } ∧
    Ciphertext.addPure c x y = Ciphertext.addPure c y x ∧
    Ciphertext.addPure c (Ciphertext.addPure c x y) w =
      Ciphertext.addPure c x (Ciphertext.addPure c y w) ∧
    (Ciphertext.addGo c h z i j).1 z = Ciphertext.addPure c (h i) (h j) ∧
    (Ciphertext.addGo c h z i j).1 i = h i ∧
    (Ciphertext.addGo c h z i j).1 j = h j := by
  obtain ⟨hsnd, hfun⟩ := addGo_eval c h z i j hiz hjz
  refine ⟨rfl, ?_, ?_, ?_, ?_, ?_⟩
  · unfold Ciphertext.addPure
    rw [hc.add_comm x.C1 y.C1 hx1 hy1, hc.add_comm x.C2 y.C2 hx2 hy2]
  · simp only [Ciphertext.addPure]
    rw [hc.add_assoc x.C1 y.C1 w.C1 hx1 hy1 hw1, hc.add_assoc x.C2 y.C2 w.C2 hx2 hy2 hw2]
  · rw [hfun z, if_pos rfl]; rfl
  · rw [hfun i, if_neg hiz]
  · rw [hfun j, if_neg hjz]

theorem add_commutative_associative_witness :
    testCurve.Lawful ∧
    testCurve.onCurve zTest.C1 = true ∧ testCurve.onCurve zTest.C2 = true ∧
    testCurve.onCurve wTest.C1 = true ∧ testCurve.onCurve wTest.C2 = true ∧
    (0 : Nat) ≠ 2 ∧ (1 : Nat) ≠ 2 ∧
    (Ciphertext.addPure testCurve zTest wTest =
       { C1 := testCurve.add zTest.C1 wTest.C1, C2 := testCurve.add zTest.C2 wTest.C2 } ∧
     Ciphertext.addPure testCurve zTest wTest = Ciphertext.addPure testCurve wTest zTest ∧
     Ciphertext.addPure testCurve (Ciphertext.addPure testCurve zTest wTest) zTest =
       Ciphertext.addPure testCurve zTest (Ciphertext.addPure testCurve wTest zTest) ∧
     (Ciphertext.addGo testCurve heap0 2 0 1).1 2 =
       Ciphertext.addPure testCurve (heap0 0) (heap0 1) ∧
     (Ciphertext.addGo testCurve heap0 2 0 1).1 0 = heap0 0 ∧
     (Ciphertext.addGo testCurve heap0 2 0 1).1 1 = heap0 1) :=
  ⟨testCurve_lawful, by decide, by decide, by decide, by decide, by decide, by decide,
    add_commutative_associative testCurve testCurve_lawful zTest wTest zTest
      (by decide) (by decide) (by decide) (by decide) (by decide) (by decide)
      heap0 2 0 1 (by decide) (by decide)⟩

/-- C10: `Add` stores its result in the receiver cell `z` and returns the
receiver pointer itself; when neither argument aliases the receiver, the
argument cells — and every other cell — are left unchanged: only the receiver
is mutated. -/
theorem add_mutates_only_receiver (c : Curve) (h : Heap) (z x y w : Nat)
    (hxz : x ≠ z) (hyz : y ≠ z) (hwz : w ≠ z) :
    (Ciphertext.addGo c h z x y).2 = z ∧
    (Ciphertext.addGo c h z x y).1 x = h x ∧
    (Ciphertext.addGo c h z x y).1 y = h y ∧
    (Ciphertext.addGo c h z x y).1 w = h w ∧
    (Ciphertext.addGo c h z x y).1 z =
      { C1 := c.add (h x).C1 (h y).C1, C2 := c.add (h x).C2 (h y).C2 } := by
  obtain ⟨hsnd, hfun⟩ := addGo_eval c h z x y hxz hyz
  exact ⟨hsnd, by rw [hfun x, if_neg hxz], by rw [hfun y, if_neg hyz],
    by rw [hfun w, if_neg hwz], by rw [hfun z, if_pos rfl]⟩

theorem add_mutates_only_receiver_witness :
    (0 : Nat) ≠ 2 ∧ (1 : Nat) ≠ 2 ∧ (3 : Nat) ≠ 2 ∧
    ((Ciphertext.addGo testCurve heap0 2 0 1).2 = 2 ∧
     (Ciphertext.addGo testCurve heap0 2 0 1).1 0 = heap0 0 ∧
     (Ciphertext.addGo testCurve heap0 2 0 1).1 1 = heap0 1 ∧
     (Ciphertext.addGo testCurve heap0 2 0 1).1 3 = heap0 3 ∧
     (Ciphertext.addGo testCurve heap0 2 0 1).1 2 =
       { C1 := testCurve.add (heap0 0).C1 (heap0 1).C1,
         C2 := testCurve.add (heap0 0).C2 (heap0 1).C2 }) :=
  ⟨by decide, by decide, by decide,
    add_mutates_only_receiver testCurve heap0 2 0 1 3 (by decide) (by decide) (by decide)⟩

/-! ## Claims about the predicate input hashing -/

/-- C3 counterexample: in the pipeline of the vote-verifier test, the value
handed to `SignECDSA` is the inner `circomInputsHash`, which differs from the
outer hash folding in the census root — here exhibited with the concrete hash
instantiation `lenHash` at the all-zero parameters and census root `0`. -/
theorem signedMessage_ne_voteInputsHash_cex :
    signedMessage lenHash voteParams0 ≠ voteInputsHash lenHash voteParams0 0 := by
  decide

/-- C3 amended: the voter's ECDSA signature covers the inner
`circomInputsHash` alone; the outer hash that folds in the census root is the
circuit's public `InputsHash` but is not the signed value — they differ
whenever the hash does not collide between the two input lists. -/
theorem signedMessage_covers_inner_hash (H : List Nat → Nat) (v : VoteParams) (root : Nat)
    (hcoll : H (bigCircomInputs v) ≠ H (bigCircomInputs v ++ [root])) :
    signedMessage H v = circomInputsHash H v ∧
    signedMessage H v ≠ voteInputsHash H v root :=
  ⟨rfl, hcoll⟩

theorem signedMessage_covers_inner_hash_witness :
    lenHash (bigCircomInputs voteParams0) ≠ lenHash (bigCircomInputs voteParams0 ++ [5]) ∧
    (signedMessage lenHash voteParams0 = circomInputsHash lenHash voteParams0 ∧
     signedMessage lenHash voteParams0 ≠ voteInputsHash lenHash voteParams0 5) :=
  ⟨by decide, signedMessage_covers_inner_hash lenHash voteParams0 5 (by decide)⟩

/-- C4: the aggregator's declared `InputsHash` is the recomputed batch hash,
and that hash is exactly the outer-field hash of the 32-byte big-endian blocks
of the fixed-width limbs of, in order: the process parameters, the encryption
public key coordinates, the process id, the census root, then every voter's
nullifier, commitment, address, and raw ciphertext coordinates; moreover every
written block is exactly 32 bytes wide. -/
theorem aggregator_batch_hash_correct (H : List (List Nat) → Nat) (a : AggregatorParams) :
    aggregatorDeclaredInputsHash H a = aggregatorBatchHashSpec H a ∧
    (((aggregatorPublicInputs a).map (fun e => e.limbs.map (beBytes 32))).flatten.all
      (fun bl => bl.length == 32)) = true := by
  constructor
  · simp [aggregatorDeclaredInputsHash, computePublicInputsHashFromBLS12377ToBW6761,
      aggregatorBatchHashSpec, aggregatorPublicInputs, emulatedValueOf,
      List.map_map, List.map_flatten, Function.comp_def]
  · rw [List.all_eq_true]
    intro bl hbl
    rw [List.mem_flatten] at hbl
    obtain ⟨blk, hblk, hbl⟩ := hbl
    rw [List.mem_map] at hblk
    obtain ⟨e, _, rfl⟩ := hblk
    rw [List.mem_map] at hbl
    obtain ⟨v, _, rfl⟩ := hbl
    simp [beBytes_length]

/-! ## Claim about the process-creation handler -/

/-- C9: on a body-decoding failure, a signature address-recovery failure, or a
key-generation failure, `newProcess` writes the structured error with the
corresponding stable code and returns without calling `StoreEncryptionKeys`. -/
theorem newProcess_error_paths (decodeBody : Except String ProcessRequest)
    (recoverAddress : ProcessRequest → Except String Nat)
    (generateKey : Except String ((Nat × Nat) × Nat))
    (store : ProcessID → (Nat × Nat) → Nat → Except String Unit) :
    (∀ e, decodeBody = Except.error e →
      newProcess decodeBody recoverAddress generateKey store =
        { response := ApiResponse.apiError errMalformedBodyCode
            ("could not decode request body: " ++ e)
          storeCalled := false }) ∧
    (∀ p e, decodeBody = Except.ok p → recoverAddress p = Except.error e →
      newProcess decodeBody recoverAddress generateKey store =
        { response := ApiResponse.apiError errInvalidSignatureCode
            ("could not extract address from signature: " ++ e)
          storeCalled := false }) ∧
    (∀ p addr e, decodeBody = Except.ok p → recoverAddress p = Except.ok addr →
      generateKey = Except.error e →
      newProcess decodeBody recoverAddress generateKey store =
        { response := ApiResponse.apiError errGenericInternalCode
            ("could not generate elgamal key: " ++ e)
          storeCalled := false }) := by
  refine ⟨?_, ?_, ?_⟩
  · intro e he
    subst he
    rfl
  · intro p e hb hr
    subst hb
    simp [newProcess, hr]
  · intro p addr e hb hg hk
    subst hb
    subst hk
    simp [newProcess, hg]

theorem newProcess_error_paths_witness :
    newProcess (Except.error "bad") recoverOk genKeyOk storeOk =
      { response := ApiResponse.apiError errMalformedBodyCode
          ("could not decode request body: " ++ "bad")
        storeCalled := false } ∧
    newProcess (Except.ok request0) recoverFail genKeyOk storeOk =
      { response := ApiResponse.apiError errInvalidSignatureCode
          ("could not extract address from signature: " ++ "sig")
        storeCalled := false } ∧
    newProcess (Except.ok request0) recoverOk (Except.error "kg") storeOk =
      { response := ApiResponse.apiError errGenericInternalCode
          ("could not generate elgamal key: " ++ "kg")
        storeCalled := false } :=
  ⟨(newProcess_error_paths (Except.error "bad") recoverOk genKeyOk storeOk).1 "bad" rfl,
   (newProcess_error_paths (Except.ok request0) recoverFail genKeyOk storeOk).2.1
     request0 "sig" rfl rfl,
   (newProcess_error_paths (Except.ok request0) recoverOk (Except.error "kg") storeOk).2.2
     request0 7 "kg" rfl rfl rfl⟩
